import Mathlib

/-!
# Verification of the stock-watchlist indicator and aggregation pipeline

Shallow embedding of the computational core of the two watchlist scripts
(`stock_watchlist_app.py` and the unnamed variant).  Prices are modelled as
rationals; a pandas `NaN` cell is modelled as `none : Option ℚ`.  Each
definition mirrors one pandas expression of the source.
-/

namespace StockWatch

/-- Model of `series.rolling(window=n).mean()` on a series with no missing values:
position `i` is available iff the trailing window of length `n` ending at `i`
is complete (`n ≤ i+1`), and then equals the arithmetic mean of that window. -/
def rollingMean (n : ℕ) (xs : List ℚ) : List (Option ℚ) :=
  (List.range xs.length).map (fun i =>
    if n ≤ i + 1 then some (((xs.drop (i + 1 - n)).take n).sum / n) else none)

/-- Model of `series.diff()`: position 0 is `NaN`; position `i > 0` is `xs[i] - xs[i-1]`. -/
def diffList (xs : List ℚ) : List (Option ℚ) :=
  (List.range xs.length).map (fun i =>
    if i = 0 then none else some (xs.getD i 0 - xs.getD (i - 1) 0))

/-- One cell of `delta.where(delta > 0, 0)`: a `NaN` delta fails the
comparison and is replaced by `0`, exactly as pandas does at index 0. -/
def posPart : Option ℚ → ℚ
  | some v => if 0 < v then v else 0
  | none => 0

/-- One cell of `-delta.where(delta < 0, 0)`. -/
def negPart : Option ℚ → ℚ
  | some v => if v < 0 then -v else 0
  | none => 0

/-- Model of `(delta.where(delta > 0, 0))` applied to the whole diff series. -/
def gainList (xs : List ℚ) : List ℚ := (diffList xs).map posPart

/-- Model of `(-delta.where(delta < 0, 0))` applied to the whole diff series. -/
def lossList (xs : List ℚ) : List ℚ := (diffList xs).map negPart

/-- Model of `gain.rolling(window=14).mean()` of the RSI computation. -/
def avgGain (xs : List ℚ) : List (Option ℚ) := rollingMean 14 (gainList xs)

/-- Model of `loss.rolling(window=14).mean()` of the RSI computation. -/
def avgLoss (xs : List ℚ) : List (Option ℚ) := rollingMean 14 (lossList xs)

/-- One cell of `100 - 100/(1 + gain/loss)` under IEEE semantics: a missing
average propagates `NaN` (`none`); `g/0` with `g ≠ 0` is infinite, driving the
expression to exactly `100`; `0/0` is `NaN` (`none`); otherwise ordinary
arithmetic. -/
def rsiCell : Option ℚ → Option ℚ → Option ℚ
  | some g, some l =>
    if l = 0 then (if g = 0 then none else some 100)
    else some (100 - 100 / (1 + g / l))
  | _, _ => none

/-- Model of `hist["RSI"] = 100 - (100 / (1 + rs))` with `rs = gain / loss`,
cell by cell over the aligned average-gain and average-loss series. -/
def rsiList (xs : List ℚ) : List (Option ℚ) :=
  List.zipWith rsiCell (avgGain xs) (avgLoss xs)

/-- Tail of `series.ewm(span, adjust=False).mean()`: `a` is the smoothing
factor and `prev` the previous EMA value. -/
def emaGo (a : ℚ) (prev : ℚ) : List ℚ → List ℚ
  | [] => []
  | x :: rest => (x * a + prev * (1 - a)) :: emaGo a (x * a + prev * (1 - a)) rest

/-- Model of `series.ewm(span=span, adjust=False).mean()`: seeded by the first value,
smoothing factor `2/(span+1)`. -/
def ema (span : ℕ) (xs : List ℚ) : List ℚ :=
  match xs with
  | [] => []
  | x :: rest => x :: emaGo (2 / ((span : ℚ) + 1)) x rest

/-- Model of `hist["MACD"] = exp1 - exp2` with `exp1 = ewm(span=12)`, `exp2 = ewm(span=26)`. -/
def macdList (xs : List ℚ) : List ℚ :=
  List.zipWith (fun a b => a - b) (ema 12 xs) (ema 26 xs)

/-- Model of `hist["Signal"] = hist["MACD"].ewm(span=9, adjust=False).mean()`. -/
def signalList (xs : List ℚ) : List ℚ := ema 9 (macdList xs)

/-- One cell of `pct_change()` (no forward fill): needs the previous and the
current close; a missing operand propagates `NaN`.  Closing prices are
positive in the intended domain, so the `p = 0` case (where IEEE arithmetic
would produce an infinity rather than the rational `0`) is excluded by
hypothesis in every theorem below. -/
def pctCell : Option ℚ → Option ℚ → Option ℚ
  | some p, some c => some ((c - p) / p)
  | _, _ => none

/-- Model of `hist_df.pct_change()` on the row-major aligned frame: row 0 is all `NaN`;
row `i > 0` compares row `i` with row `i-1` column by column. -/
def pctChangeRows (rows : List (List (Option ℚ))) : List (List (Option ℚ)) :=
  (List.range rows.length).map (fun i =>
    if i = 0 then (rows.getD 0 []).map (fun _ => none)
    else List.zipWith pctCell (rows.getD (i - 1) []) (rows.getD i []))

/-- The `dropna` row criterion: every cell of the row is present. -/
def fullRow (r : List (Option ℚ)) : Bool := r.all (fun o => o.isSome)

/-- Model of `.dropna()`: keep only the rows in which every cell is present. -/
def dropnaRows (rows : List (List (Option ℚ))) : List (List (Option ℚ)) :=
  rows.filter fullRow

/-- Model of `returns = hist_df.pct_change().dropna() * 100`. -/
def returnMatrix (rows : List (List (Option ℚ))) : List (List (Option ℚ)) :=
  (dropnaRows (pctChangeRows rows)).map (fun r => r.map (Option.map (fun q => q * 100)))

/-- The snapshot fields read from `stock.info`; an attribute absent from the
provider response is `none` (the code stores the sentinel default of
`info.get(key, default)`). -/
structure InfoRecord where
  shortName : Option String
  currentPrice : Option ℚ
  marketCap : Option ℚ
  fiftyTwoWeekHigh : Option ℚ
  fiftyTwoWeekLow : Option ℚ
  trailingPE : Option ℚ
deriving DecidableEq

/-- One entry of the `data` list: the dict appended for a ticker whose info
fetch succeeded. -/
structure MetricsRow where
  ticker : String
  name : Option String
  price : Option ℚ
  marketCap : Option ℚ
  high52 : Option ℚ
  low52 : Option ℚ
  peRatio : Option ℚ
deriving DecidableEq

/-- The dict literal appended to `data` for symbol `t`. -/
def mkRow (t : String) (info : InfoRecord) : MetricsRow :=
  ⟨t, info.shortName, info.currentPrice, info.marketCap,
    info.fiftyTwoWeekHigh, info.fiftyTwoWeekLow, info.trailingPE⟩

/-- Model of `st.error(f"Error fetching ...")` message recorded by the fetch loop. -/
def fetchErrMsg (t e : String) : String := "Error fetching " ++ t ++ ": " ++ e

/-- Model of `st.warning(f"Could not fetch chart for ...")` message of the chart loop. -/
def chartWarnMsg (t e : String) : String := "Could not fetch chart for " ++ t ++ ": " ++ e

/-- The main fetch loop: for each ticker, in input order, read `stock.info`
(then append a row), then download its closing-price history; any exception
inside the body is caught, an error message recorded, and the loop continues
with the next ticker.  Returns `(data, hist_data, errors)`.  Note the row is
appended before the price download, so a download failure alone leaves the
row in place. -/
def fetchLoop (fi : String → Except String InfoRecord)
    (fs : String → Except String (List ℚ)) :
    List String → List MetricsRow × List (String × List ℚ) × List String
  | [] => ([], [], [])
  | t :: rest =>
    let tail := fetchLoop fi fs rest
    match fi t with
    | .error e => (tail.1, tail.2.1, fetchErrMsg t e :: tail.2.2)
    | .ok info =>
      match fs t with
      | .error e => (mkRow t info :: tail.1, tail.2.1, fetchErrMsg t e :: tail.2.2)
      | .ok cs => (mkRow t info :: tail.1, (t, cs) :: tail.2.1, tail.2.2)

/-- Model of `column.replace("N/A", pd.NA).dropna().astype(float).mean()`: the mean of
the present values of one column; the mean of an empty selection is `NaN`
(`none`), rendered "N/A" by the UI. -/
def colMean (col : List (Option ℚ)) : Option ℚ :=
  let vals := col.filterMap id
  if vals.length = 0 then none else some (vals.sum / vals.length)

/-- The market-sentiment summary block. -/
structure Summary where
  avgPrice : Option ℚ
  avgMarketCap : Option ℚ
  avgPE : Option ℚ
deriving DecidableEq

/-- Model of `avg_price`, `avg_mcap`, `avg_pe` computed from the metrics table. -/
def mkSummary (rows : List MetricsRow) : Summary :=
  ⟨colMean (rows.map (fun r => r.price)),
    colMean (rows.map (fun r => r.marketCap)),
    colMean (rows.map (fun r => r.peRatio))⟩

/-- The derived columns attached to one ticker's price history in the chart
loop. -/
structure IndicatorSet where
  close : List ℚ
  sma20 : List (Option ℚ)
  sma50 : List (Option ℚ)
  rsi : List (Option ℚ)
  macd : List ℚ
  signal : List ℚ
deriving DecidableEq

/-- The indicator computations of the chart-loop body on one ticker's closes. -/
def computeIndicators (cs : List ℚ) : IndicatorSet :=
  ⟨cs, rollingMean 20 cs, rollingMean 50 cs, rsiList cs, macdList cs, signalList cs⟩

/-- The per-ticker chart loop: re-downloads each ticker's history, computes
the indicator columns and emits one chart; an exception is caught per ticker
as a warning and the loop continues.  Returns `(chart outputs, warnings)`. -/
def chartLoop (fs : String → Except String (List ℚ)) :
    List String → List (String × IndicatorSet) × List String
  | [] => ([], [])
  | t :: rest =>
    let tail := chartLoop fs rest
    match fs t with
    | .error e => (tail.1, chartWarnMsg t e :: tail.2)
    | .ok cs => ((t, computeIndicators cs) :: tail.1, tail.2)

/-- Alignment of the per-ticker close columns into the row-major frame
`pd.DataFrame(hist_data)` (dates abstracted as indices on a common axis;
a column shorter than the axis has `none` past its end). -/
def alignedRows (cols : List (List ℚ)) : List (List (Option ℚ)) :=
  (List.range ((cols.map List.length).foldr max 0)).map
    (fun i => cols.map (fun col => col[i]?))

/-- Everything the script renders after the fetch loop. -/
structure AppOutput where
  errors : List String
  table : Option (List MetricsRow)
  summary : Option Summary
  exportPayload : Option (List MetricsRow)
  heatmap : Option (List (List (Option ℚ)))
  charts : Option (List (String × IndicatorSet) × List String)

/-- The whole post-click flow: fetch loop, then the `if data:` guard around
the table, summary, export, heatmap (itself guarded by `if hist_data:`) and
the chart loop. -/
def runApp (fi : String → Except String InfoRecord)
    (fs : String → Except String (List ℚ)) (tickers : List String) : AppOutput :=
  let res := fetchLoop fi fs tickers
  if res.1.isEmpty then
    ⟨res.2.2, none, none, none, none, none⟩
  else
    ⟨res.2.2, some res.1, some (mkSummary res.1), some res.1,
      if res.2.1.isEmpty then none
      else some (returnMatrix (alignedRows (res.2.1.map (fun p => p.2)))),
      some (chartLoop fs tickers)⟩

/-- Model of `tickers_input.split(",")` modelled on character lists: split at every
comma, keeping empty pieces (Python keeps them; the comprehension filters
them out later). -/
def splitOnComma : List Char → List (List Char)
  | [] => [[]]
  | ch :: rest =>
    if ch = ',' then [] :: splitOnComma rest
    else
      match splitOnComma rest with
      | [] => [[ch]]
      | piece :: more => (ch :: piece) :: more

/-- Model of `t.strip()`: remove leading and trailing whitespace. -/
def stripChars (cs : List Char) : List Char :=
  ((cs.dropWhile Char.isWhitespace).reverse.dropWhile Char.isWhitespace).reverse

/-- Model of `t.upper()` on the ASCII ticker alphabet. -/
def upperChars (cs : List Char) : List Char := cs.map Char.toUpper

/-- Model of `[t.strip().upper() for t in tickers_input.split(",") if t.strip()]`. -/
def parseTickers (s : List Char) : List (List Char) :=
  ((splitOnComma s).filter (fun t => stripChars t ≠ [])).map
    (fun t => upperChars (stripChars t))

/-! ## Helper lemmas about the rolling operations -/

theorem length_rollingMean (n : ℕ) (xs : List ℚ) :
    (rollingMean n xs).length = xs.length := by
  simp [rollingMean]

theorem rollingMean_getElem? (n : ℕ) (xs : List ℚ) (i : ℕ) (h : i < xs.length) :
    (rollingMean n xs)[i]? =
      some (if n ≤ i + 1 then some (((xs.drop (i + 1 - n)).take n).sum / n) else none) := by
  simp [rollingMean, List.getElem?_map, List.getElem?_range, h]

theorem countP_range_window (n L : ℕ) (hn : 1 ≤ n) :
    (List.range L).countP (fun i => decide (n ≤ i + 1)) = L + 1 - n := by
  induction L with
  | zero => simp; omega
  | succ L ih =>
    rw [List.range_succ, List.countP_append, ih]
    by_cases h : n ≤ L + 1 <;> simp [h] <;> omega

theorem countP_isSome_rollingMean (n : ℕ) (xs : List ℚ) (hn : 1 ≤ n) :
    (rollingMean n xs).countP (fun o => o.isSome) = xs.length + 1 - n := by
  unfold rollingMean
  rw [List.countP_map]
  have heq : ((fun o : Option ℚ => o.isSome) ∘ fun i =>
      if n ≤ i + 1 then some (((xs.drop (i + 1 - n)).take n).sum / n) else none) =
      fun i => decide (n ≤ i + 1) := by
    funext i
    by_cases h : n ≤ i + 1 <;> simp [h]
  rw [heq, countP_range_window n xs.length hn]

theorem sum_take_getD (l : List ℚ) (n : ℕ) (h : n ≤ l.length) :
    (l.take n).sum = ∑ j ∈ Finset.range n, l.getD j 0 := by
  induction n with
  | zero => simp
  | succ n ih =>
    have hn : n < l.length := by omega
    rw [List.take_succ, List.sum_append, Finset.sum_range_succ, ih (by omega)]
    simp [List.getD, List.getElem?_eq_getElem hn]

theorem window_sum_eq (xs : List ℚ) (a n : ℕ) (h : a + n ≤ xs.length) :
    ((xs.drop a).take n).sum = ∑ j ∈ Finset.range n, xs.getD (a + j) 0 := by
  rw [sum_take_getD (xs.drop a) n (by simp; omega)]
  refine Finset.sum_congr rfl (fun j hj => ?_)
  simp only [List.getD_eq_getElem?_getD, List.getElem?_drop]

/-- C2 supporting form: full description of one rolling-mean cell. -/
theorem rollingMean_cell (n : ℕ) (xs : List ℚ) (i : ℕ) (h : i < xs.length) :
    (i + 1 < n → (rollingMean n xs)[i]? = some none) ∧
    (n ≤ i + 1 → (rollingMean n xs)[i]? =
      some (some ((∑ j ∈ Finset.range n, xs.getD (i + 1 - n + j) 0) / n))) := by
  constructor
  · intro hlt
    rw [rollingMean_getElem? n xs i h]
    simp [Nat.not_le.mpr hlt]
  · intro hle
    rw [rollingMean_getElem? n xs i h, if_pos hle,
      window_sum_eq xs (i + 1 - n) n (by omega)]

/-! ## C2 : SMA availability and values -/

/-- C2: for a price series of length `L` and window `n ≥ 1` (the code uses
`n = 20` and `n = 50`), the SMA series has the same length, exactly
`max (0, L - n + 1)` available values (here `L + 1 - n` in truncated
ℕ-subtraction), every index `i < n - 1` is the not-available marker, and
every index `i ≥ n - 1` carries the arithmetic mean of the `n` closes ending
at `i`; in particular for `L < n` every position is not available. -/
theorem sma_window_spec (n : ℕ) (xs : List ℚ) (hn : 1 ≤ n) :
    (rollingMean n xs).length = xs.length ∧
    (rollingMean n xs).countP (fun o => o.isSome) = xs.length + 1 - n ∧
    ∀ i, i < xs.length →
      (i < n - 1 → (rollingMean n xs)[i]? = some none) ∧
      (n - 1 ≤ i → (rollingMean n xs)[i]? =
        some (some ((∑ j ∈ Finset.range n, xs.getD (i + 1 - n + j) 0) / n))) := by
  refine ⟨length_rollingMean n xs, countP_isSome_rollingMean n xs hn, fun i hi => ?_⟩
  have hc := rollingMean_cell n xs i hi
  exact ⟨fun hlt => hc.1 (by omega), fun hle => hc.2 (by omega)⟩

/-- Witness for C2 at `n = 3`, closes `[1, 2, 3, 4]`. -/
theorem sma_window_spec_witness :
    (rollingMean 3 [(1 : ℚ), 2, 3, 4]).countP (fun o => o.isSome) = 2 ∧
    (rollingMean 3 [(1 : ℚ), 2, 3, 4])[1]? = some none ∧
    (rollingMean 3 [(1 : ℚ), 2, 3, 4])[2]? = some (some 2) := by
  have h := sma_window_spec 3 [(1 : ℚ), 2, 3, 4] (by decide)
  refine ⟨by simpa using h.2.1, (h.2.2 1 (by decide)).1 (by decide), ?_⟩
  rw [(h.2.2 2 (by decide)).2 (by decide)]
  norm_num [Finset.sum_range_succ]

/-! ## Helper lemmas about the RSI pipeline -/

theorem posPart_nonneg (o : Option ℚ) : 0 ≤ posPart o := by
  cases o with
  | none => simp [posPart]
  | some v =>
    simp only [posPart]
    split <;> [linarith; rfl]

theorem negPart_nonneg (o : Option ℚ) : 0 ≤ negPart o := by
  cases o with
  | none => simp [negPart]
  | some v =>
    simp only [negPart]
    split <;> [linarith; rfl]

theorem gainList_nonneg (xs : List ℚ) : ∀ x ∈ gainList xs, 0 ≤ x := by
  intro x hx
  obtain ⟨o, _, rfl⟩ := List.mem_map.mp hx
  exact posPart_nonneg o

theorem lossList_nonneg (xs : List ℚ) : ∀ x ∈ lossList xs, 0 ≤ x := by
  intro x hx
  obtain ⟨o, _, rfl⟩ := List.mem_map.mp hx
  exact negPart_nonneg o

theorem rollingMean_nonneg (n : ℕ) (xs : List ℚ) (hxs : ∀ x ∈ xs, 0 ≤ x)
    (i : ℕ) (v : ℚ) (h : (rollingMean n xs)[i]? = some (some v)) : 0 ≤ v := by
  have hi : i < xs.length := by
    by_contra hcon
    rw [List.getElem?_eq_none (by rw [length_rollingMean]; omega)] at h
    exact Option.noConfusion h
  rw [rollingMean_getElem? n xs i hi] at h
  by_cases hc : n ≤ i + 1
  · rw [if_pos hc] at h
    obtain rfl : ((xs.drop (i + 1 - n)).take n).sum / (n : ℚ) = v := by
      simpa using h
    apply div_nonneg _ (by positivity)
    exact List.sum_nonneg (fun x hx =>
      hxs x (List.mem_of_mem_drop (List.mem_of_mem_take hx)))
  · rw [if_neg hc] at h
    simp at h

theorem length_diffList (xs : List ℚ) : (diffList xs).length = xs.length := by
  simp [diffList]

theorem length_gainList (xs : List ℚ) : (gainList xs).length = xs.length := by
  simp [gainList, length_diffList]

theorem length_lossList (xs : List ℚ) : (lossList xs).length = xs.length := by
  simp [lossList, length_diffList]

theorem diffList_getElem? (xs : List ℚ) (i : ℕ) (h : i < xs.length) :
    (diffList xs)[i]? =
      some (if i = 0 then none else some (xs.getD i 0 - xs.getD (i - 1) 0)) := by
  simp [diffList, List.getElem?_map, List.getElem?_range, h]

theorem posPart_some (v : ℚ) : posPart (some v) = max v 0 := by
  simp only [posPart]
  rcases le_or_lt v 0 with hle | hlt
  · rw [if_neg (by linarith), max_eq_right hle]
  · rw [if_pos hlt, max_eq_left hlt.le]

theorem negPart_some (v : ℚ) : negPart (some v) = max (-v) 0 := by
  simp only [negPart]
  rcases lt_or_le v 0 with hlt | hle
  · rw [if_pos hlt, max_eq_left (by linarith)]
  · rw [if_neg (by linarith), max_eq_right (by linarith)]

theorem gainList_getD (xs : List ℚ) (i : ℕ) (h : i < xs.length) :
    (gainList xs).getD i 0 =
      if i = 0 then 0 else max (xs.getD i 0 - xs.getD (i - 1) 0) 0 := by
  rw [gainList, List.getD_eq_getElem?_getD, List.getElem?_map,
    diffList_getElem? xs i h]
  by_cases h0 : i = 0
  · simp [h0, posPart]
  · simp [h0, posPart_some]

theorem lossList_getD (xs : List ℚ) (i : ℕ) (h : i < xs.length) :
    (lossList xs).getD i 0 =
      if i = 0 then 0 else max (-(xs.getD i 0 - xs.getD (i - 1) 0)) 0 := by
  rw [lossList, List.getD_eq_getElem?_getD, List.getElem?_map,
    diffList_getElem? xs i h]
  by_cases h0 : i = 0
  · simp [h0, negPart]
  · simp [h0, negPart_some]

theorem rsiList_getElem?_of (xs : List ℚ) (i : ℕ) (a b : Option ℚ)
    (ha : (avgGain xs)[i]? = some a) (hb : (avgLoss xs)[i]? = some b) :
    (rsiList xs)[i]? = some (rsiCell a b) := by
  rw [rsiList, List.getElem?_zipWith, ha, hb]

theorem rsiList_some_inv (xs : List ℚ) (i : ℕ) (o : Option ℚ)
    (h : (rsiList xs)[i]? = some o) :
    ∃ g l : Option ℚ, (avgGain xs)[i]? = some g ∧ (avgLoss xs)[i]? = some l ∧
      rsiCell g l = o := by
  rw [rsiList, List.getElem?_zipWith] at h
  cases hg : (avgGain xs)[i]? with
  | none => rw [hg] at h; simp at h
  | some g =>
    cases hl : (avgLoss xs)[i]? with
    | none => rw [hg, hl] at h; simp at h
    | some l =>
      rw [hg, hl] at h
      exact ⟨g, l, rfl, rfl, by simpa using h⟩

/-! ## C7 : RSI gain/loss structure and availability -/

/-- C7: the day-over-day delta is undefined at index 0 (the code's
`where` replaces it by `0` in both the gain and the loss series); at every
later index the gain is `max (Δ i) 0` and the loss is `max (-Δ i) 0`; the
average gain and average loss are the trailing simple rolling means of
window 14 over those series, and within the series exactly the indices
`0 ≤ i < 13` are the not-available marker. -/
theorem rsi_rolling_structure (xs : List ℚ) :
    (∀ i, i < xs.length → 0 < i →
      (gainList xs).getD i 0 = max (xs.getD i 0 - xs.getD (i - 1) 0) 0 ∧
      (lossList xs).getD i 0 = max (-(xs.getD i 0 - xs.getD (i - 1) 0)) 0) ∧
    (xs ≠ [] → (gainList xs).getD 0 0 = 0 ∧ (lossList xs).getD 0 0 = 0) ∧
    (∀ i, i < xs.length →
      ((avgGain xs)[i]? = some none ↔ i < 13) ∧
      ((avgLoss xs)[i]? = some none ↔ i < 13) ∧
      (13 ≤ i →
        (avgGain xs)[i]? =
          some (some ((∑ j ∈ Finset.range 14, (gainList xs).getD (i - 13 + j) 0) / 14)) ∧
        (avgLoss xs)[i]? =
          some (some ((∑ j ∈ Finset.range 14, (lossList xs).getD (i - 13 + j) 0) / 14)))) := by
  refine ⟨fun i hi h0 => ?_, fun hne => ?_, fun i hi => ?_⟩
  · rw [gainList_getD xs i hi, lossList_getD xs i hi, if_neg (by omega), if_neg (by omega)]
    exact ⟨rfl, rfl⟩
  · have h0 : 0 < xs.length := List.length_pos.mpr hne
    rw [gainList_getD xs 0 h0, lossList_getD xs 0 h0]
    simp
  · have hgi : i < (gainList xs).length := by rw [length_gainList]; exact hi
    have hli : i < (lossList xs).length := by rw [length_lossList]; exact hi
    have hg := rollingMean_cell 14 (gainList xs) i hgi
    have hl := rollingMean_cell 14 (lossList xs) i hli
    refine ⟨?_, ?_, fun h13 => ?_⟩
    · constructor
      · intro hnone
        by_contra hcon
        have := (hg.2 (by omega)).symm.trans hnone
        simp at this
      · intro hlt
        exact hg.1 (by omega)
    · constructor
      · intro hnone
        by_contra hcon
        have := (hl.2 (by omega)).symm.trans hnone
        simp at this
      · intro hlt
        exact hl.1 (by omega)
    · have e1 := hg.2 (by omega)
      have e2 := hl.2 (by omega)
      have harg : i + 1 - 14 = i - 13 := by omega
      rw [harg] at e1 e2
      exact ⟨e1, e2⟩

/-- Witness for C7 on the strictly increasing 14-point series `[1, …, 14]`. -/
theorem rsi_rolling_structure_witness :
    (gainList [(1 : ℚ), 2, 3, 4, 5, 6, 7, 8, 9, 10, 11, 12, 13, 14]).getD 5 0 = 1 ∧
    (avgGain [(1 : ℚ), 2, 3, 4, 5, 6, 7, 8, 9, 10, 11, 12, 13, 14])[12]? = some none ∧
    (avgGain [(1 : ℚ), 2, 3, 4, 5, 6, 7, 8, 9, 10, 11, 12, 13, 14])[13]? =
      some (some (13 / 14)) := by
  have h := rsi_rolling_structure [(1 : ℚ), 2, 3, 4, 5, 6, 7, 8, 9, 10, 11, 12, 13, 14]
  refine ⟨?_, ((h.2.2 12 (by decide)).1).mpr (by decide), ?_⟩
  · rw [(h.1 5 (by decide) (by decide)).1]
    norm_num
  · rw [((h.2.2 13 (by decide)).2.2 (by decide)).1]
    norm_num [Finset.sum_range_succ]
    norm_num [gainList, diffList, posPart, List.getElem?_map, List.getElem?_range]

/-! ## C1 : RSI range and division edge cases -/

/-- C1: wherever RSI is available its value lies in `[0, 100]`; when the
14-window average loss is exactly `0` and the average gain is positive the
value is exactly `100` (the infinite relative strength collapses to `100`,
not an error); when both averages are `0` the RSI cell is the not-available
marker. -/
theorem rsi_range_and_edges (xs : List ℚ) (i : ℕ) :
    (∀ v, (rsiList xs)[i]? = some (some v) → 0 ≤ v ∧ v ≤ 100) ∧
    (∀ g, (avgGain xs)[i]? = some (some g) → (avgLoss xs)[i]? = some (some 0) →
      (0 < g → (rsiList xs)[i]? = some (some 100)) ∧
      (g = 0 → (rsiList xs)[i]? = some none)) := by
  constructor
  · intro v hv
    obtain ⟨go, lo, hg, hl, hcell⟩ := rsiList_some_inv xs i (some v) hv
    match go, lo, hcell with
    | some g, some l, hcell =>
      have hg0 : 0 ≤ g := rollingMean_nonneg 14 (gainList xs) (gainList_nonneg xs) i g hg
      have hl0 : 0 ≤ l := rollingMean_nonneg 14 (lossList xs) (lossList_nonneg xs) i l hl
      by_cases hlz : l = 0
      · rw [rsiCell, if_pos hlz] at hcell
        by_cases hgz : g = 0
        · rw [if_pos hgz] at hcell
          exact absurd hcell (by simp)
        · rw [if_neg hgz] at hcell
          obtain rfl : (100 : ℚ) = v := by simpa using hcell
          norm_num
      · rw [rsiCell, if_neg hlz] at hcell
        obtain rfl : 100 - 100 / (1 + g / l) = v := by simpa using hcell
        have hlpos : 0 < l := lt_of_le_of_ne hl0 (Ne.symm hlz)
        have hr : 0 ≤ g / l := div_nonneg hg0 hlpos.le
        have h1 : (0 : ℚ) < 1 + g / l := by linarith
        have h2 : 100 / (1 + g / l) ≤ 100 := div_le_self (by norm_num) (by linarith)
        have h3 : 0 < 100 / (1 + g / l) := div_pos (by norm_num) h1
        constructor <;> linarith
  · intro g hg hl
    have hcell := rsiList_getElem?_of xs i (some g) (some 0) hg hl
    constructor
    · intro hgpos
      rw [hcell, rsiCell, if_pos rfl, if_neg (by linarith)]
    · intro hgz
      rw [hcell, rsiCell, if_pos rfl, if_pos hgz]

/-- Witness for C1: on the rising series `[1, …, 14]` the first available RSI
is exactly `100`; on a flat series of fourteen `5`s it is the marker. -/
theorem rsi_range_and_edges_witness :
    (rsiList [(1 : ℚ), 2, 3, 4, 5, 6, 7, 8, 9, 10, 11, 12, 13, 14])[13]? =
      some (some 100) ∧
    (rsiList [(5 : ℚ), 5, 5, 5, 5, 5, 5, 5, 5, 5, 5, 5, 5, 5])[13]? = some none := by
  constructor
  · have hg : (avgGain [(1 : ℚ), 2, 3, 4, 5, 6, 7, 8, 9, 10, 11, 12, 13, 14])[13]? =
        some (some (13 / 14)) := by
      have hcell := (rollingMean_cell 14
        (gainList [(1 : ℚ), 2, 3, 4, 5, 6, 7, 8, 9, 10, 11, 12, 13, 14]) 13
        (by rw [length_gainList]; norm_num)).2 (by norm_num)
      simp only [avgGain]
      rw [hcell]
      norm_num [Finset.sum_range_succ]
      norm_num [gainList, diffList, posPart, List.getElem?_map, List.getElem?_range]
    have hl : (avgLoss [(1 : ℚ), 2, 3, 4, 5, 6, 7, 8, 9, 10, 11, 12, 13, 14])[13]? =
        some (some 0) := by
      have hcell := (rollingMean_cell 14
        (lossList [(1 : ℚ), 2, 3, 4, 5, 6, 7, 8, 9, 10, 11, 12, 13, 14]) 13
        (by rw [length_lossList]; norm_num)).2 (by norm_num)
      simp only [avgLoss]
      rw [hcell]
      norm_num [Finset.sum_range_succ]
      norm_num [lossList, diffList, negPart, List.getElem?_map, List.getElem?_range]
    exact ((rsi_range_and_edges [(1 : ℚ), 2, 3, 4, 5, 6, 7, 8, 9, 10, 11, 12, 13, 14]
      13).2 (13 / 14) hg hl).1 (by norm_num)
  · have hg : (avgGain [(5 : ℚ), 5, 5, 5, 5, 5, 5, 5, 5, 5, 5, 5, 5, 5])[13]? =
        some (some 0) := by
      have hcell := (rollingMean_cell 14
        (gainList [(5 : ℚ), 5, 5, 5, 5, 5, 5, 5, 5, 5, 5, 5, 5, 5]) 13
        (by rw [length_gainList]; norm_num)).2 (by norm_num)
      simp only [avgGain]
      rw [hcell]
      norm_num [Finset.sum_range_succ]
      norm_num [gainList, diffList, posPart, List.getElem?_map, List.getElem?_range]
    have hl : (avgLoss [(5 : ℚ), 5, 5, 5, 5, 5, 5, 5, 5, 5, 5, 5, 5, 5])[13]? =
        some (some 0) := by
      have hcell := (rollingMean_cell 14
        (lossList [(5 : ℚ), 5, 5, 5, 5, 5, 5, 5, 5, 5, 5, 5, 5, 5]) 13
        (by rw [length_lossList]; norm_num)).2 (by norm_num)
      simp only [avgLoss]
      rw [hcell]
      norm_num [Finset.sum_range_succ]
      norm_num [lossList, diffList, negPart, List.getElem?_map, List.getElem?_range]
    exact ((rsi_range_and_edges [(5 : ℚ), 5, 5, 5, 5, 5, 5, 5, 5, 5, 5, 5, 5, 5]
      13).2 0 hg hl).2 rfl

/-! ## Helper lemmas about the EMA -/

theorem length_emaGo (a p : ℚ) (xs : List ℚ) : (emaGo a p xs).length = xs.length := by
  induction xs generalizing p with
  | nil => rfl
  | cons x rest ih => simp [emaGo, ih]

theorem length_ema (span : ℕ) (xs : List ℚ) : (ema span xs).length = xs.length := by
  cases xs with
  | nil => rfl
  | cons x rest => simp [ema, length_emaGo]

theorem emaGo_getD (a p : ℚ) (xs : List ℚ) (i : ℕ) (h : i < xs.length) :
    (emaGo a p xs).getD i 0 =
      xs.getD i 0 * a +
        (if i = 0 then p else (emaGo a p xs).getD (i - 1) 0) * (1 - a) := by
  induction xs generalizing p i with
  | nil => simp at h
  | cons x rest ih =>
    cases i with
    | zero => simp [emaGo]
    | succ j =>
      have hj : j < rest.length := by simpa using h
      simp only [emaGo, List.getD_cons_succ]
      rw [ih (x * a + p * (1 - a)) j hj]
      cases j with
      | zero => simp [emaGo]
      | succ k => simp [List.getD_cons_succ]

/-! ## C3 : EMA recurrence, MACD and Signal -/

/-- C3: the exponential moving average used for MACD/Signal is seeded by the
first close and obeys `ema i = close i * k + ema (i-1) * (1-k)` with
`k = 2/(span+1)`; `MACD` is the pointwise difference of the span-12 and
span-26 EMAs, `Signal` the span-9 EMA of `MACD`; and on the closes
`[10, 11, 12, 11, 13]` with span 3 the EMA series is
`[10, 10.5, 11.25, 11.125, 12.0625]`. -/
theorem ema_macd_signal_spec (span : ℕ) (xs : List ℚ) :
    ((ema span xs).length = xs.length ∧
      (0 < xs.length → (ema span xs).getD 0 0 = xs.getD 0 0) ∧
      ∀ i, 0 < i → i < xs.length →
        (ema span xs).getD i 0 =
          xs.getD i 0 * (2 / ((span : ℚ) + 1)) +
            (ema span xs).getD (i - 1) 0 * (1 - 2 / ((span : ℚ) + 1))) ∧
    macdList xs = List.zipWith (fun a b => a - b) (ema 12 xs) (ema 26 xs) ∧
    signalList xs = ema 9 (macdList xs) ∧
    ema 3 [(10 : ℚ), 11, 12, 11, 13] =
      [10, 21 / 2, 45 / 4, 89 / 8, 193 / 16] := by
  refine ⟨⟨length_ema span xs, fun h0 => ?_, fun i hi hlen => ?_⟩, rfl, rfl, ?_⟩
  · cases xs with
    | nil => simp at h0
    | cons x rest => simp [ema]
  · cases xs with
    | nil => simp at hlen
    | cons x rest =>
      cases i with
      | zero => omega
      | succ j =>
        have hj : j < rest.length := by simpa using hlen
        simp only [ema, List.getD_cons_succ]
        rw [emaGo_getD (2 / ((span : ℚ) + 1)) x rest j hj]
        cases j with
        | zero => simp
        | succ k => simp [List.getD_cons_succ]
  · norm_num [ema, emaGo]

/-- Witness for C3: the recurrence applied at index 1 of the fixed example
produces `10.5`. -/
theorem ema_macd_signal_spec_witness :
    (ema 3 [(10 : ℚ), 11, 12, 11, 13]).getD 1 0 = 21 / 2 := by
  have h := ema_macd_signal_spec 3 [(10 : ℚ), 11, 12, 11, 13]
  rw [h.1.2.2 1 (by norm_num) (by norm_num), h.1.2.1 (by norm_num)]
  norm_num

/-! ## Helper lemmas about the return matrix -/

theorem pctCell_isSome (a b : Option ℚ) : (pctCell a b).isSome = (a.isSome && b.isSome) := by
  cases a <;> cases b <;> rfl

theorem fullRow_zipWith_pctCell (p q : List (Option ℚ)) (h : p.length = q.length) :
    fullRow (List.zipWith pctCell p q) = (fullRow p && fullRow q) := by
  induction p generalizing q with
  | nil =>
    cases q with
    | nil => rfl
    | cons b q => simp at h
  | cons a p ih =>
    cases q with
    | nil => simp at h
    | cons b q =>
      have h2 : p.length = q.length := by simpa using h
      simp only [List.zipWith_cons_cons, fullRow, List.all_cons] at *
      rw [pctCell_isSome, ih q h2]
      cases ha : a.isSome <;> cases hb : b.isSome <;>
        simp [Bool.and_assoc, Bool.and_comm, Bool.and_left_comm]

theorem map_zipWith_pct (p q : List (Option ℚ)) (hp : fullRow p = true)
    (hq : fullRow q = true) :
    (List.zipWith pctCell p q).map (Option.map (fun x => x * 100)) =
      List.zipWith (fun a b => some ((b.getD 0 - a.getD 0) / a.getD 0 * 100)) p q := by
  induction p generalizing q with
  | nil => cases q <;> rfl
  | cons a p ih =>
    cases q with
    | nil => rfl
    | cons b q =>
      simp only [fullRow, List.all_cons, Bool.and_eq_true] at hp hq
      obtain ⟨x, rfl⟩ := Option.isSome_iff_exists.mp hp.1
      obtain ⟨y, rfl⟩ := Option.isSome_iff_exists.mp hq.1
      simp only [List.zipWith_cons_cons, List.map_cons]
      rw [ih q hp.2 hq.2]
      rfl

theorem getD_mem_of_lt (rows : List (List (Option ℚ))) (i : ℕ) (h : i < rows.length) :
    rows.getD i [] ∈ rows := by
  rw [List.getD_eq_getElem?_getD, List.getElem?_eq_getElem h]
  exact List.getElem_mem h

/-! ## C4 : the return matrix -/

/-- C4: with at least one symbol column and positive closing prices, the
return matrix is exactly the list, over dates `i` in order, of those rows
with `i > 0` whose own date and previous date have a present close for every
symbol, each cell being `(close i - close (i-1)) / close (i-1) * 100`; in
particular no row for the first aligned date survives and no surviving row
has an absent close for any symbol. -/
theorem return_matrix_spec (w : ℕ) (rows : List (List (Option ℚ)))
    (hw : ∀ r ∈ rows, r.length = w) (hw1 : 1 ≤ w)
    (hpos : ∀ r ∈ rows, ∀ o ∈ r, ∀ q, o = some q → 0 < q) :
    returnMatrix rows =
      ((List.range rows.length).filter (fun i =>
          decide (0 < i) && (fullRow (rows.getD (i - 1) []) &&
            fullRow (rows.getD i [])))).map
        (fun i => List.zipWith
          (fun a b => some ((b.getD 0 - a.getD 0) / a.getD 0 * 100))
          (rows.getD (i - 1) []) (rows.getD i [])) := by
  unfold returnMatrix dropnaRows pctChangeRows
  rw [List.filter_map, List.map_map]
  have hpred : ∀ i ∈ List.range rows.length,
      (fullRow ∘ fun i =>
        if i = 0 then (rows.getD 0 []).map (fun _ => none)
        else List.zipWith pctCell (rows.getD (i - 1) []) (rows.getD i [])) i =
      (decide (0 < i) && (fullRow (rows.getD (i - 1) []) && fullRow (rows.getD i []))) := by
    intro i hi
    have hiL : i < rows.length := List.mem_range.mp hi
    by_cases h0 : i = 0
    · subst h0
      simp only [Function.comp, if_pos rfl, decide_eq_false (by omega : ¬ (0:ℕ) < 0),
        Bool.false_and]
      have hmem := getD_mem_of_lt rows 0 hiL
      have hlen := hw _ hmem
      cases hrow : rows.getD 0 [] with
      | nil => rw [hrow] at hlen; simp at hlen; omega
      | cons o r => simp [fullRow]
    · have hlen1 : (rows.getD (i - 1) []).length = w :=
        hw _ (getD_mem_of_lt rows (i - 1) (by omega))
      have hlen2 : (rows.getD i []).length = w := hw _ (getD_mem_of_lt rows i hiL)
      simp only [Function.comp, if_neg h0, decide_eq_true (by omega : 0 < i),
        Bool.true_and]
      exact fullRow_zipWith_pctCell _ _ (by rw [hlen1, hlen2])
  rw [List.filter_congr hpred]
  apply List.map_congr_left
  intro i hi
  have hcond := (List.mem_filter.mp hi).2
  simp only [Bool.and_eq_true, decide_eq_true_eq] at hcond
  simp only [Function.comp, if_neg (by omega : ¬ i = 0)]
  exact map_zipWith_pct _ _ hcond.2.1 hcond.2.2

/-- Witness for C4 on two symbols over three dates, the third date missing a
close for the second symbol: only the middle row survives, with cells
`+100%` and `-50%`. -/
theorem return_matrix_spec_witness :
    returnMatrix [[some 1, some 2], [some 2, some 1], [some 3, none]] =
      [[some 100, some (-50)]] := by
  rw [return_matrix_spec 2 [[some 1, some 2], [some 2, some 1], [some 3, none]]
    (by decide) (by norm_num)
    (by
      intro r hr o ho q hq
      fin_cases hr <;> fin_cases ho <;> simp_all <;> linarith)]
  norm_num [List.range_succ, List.filter, fullRow, List.getD, pctCell]

/-! ## Helper lemmas about the fetch and chart loops -/

theorem fetchLoop_rows_eq (fi : String → Except String InfoRecord)
    (fs : String → Except String (List ℚ)) (tickers : List String) :
    (fetchLoop fi fs tickers).1 = tickers.filterMap (fun t =>
      match fi t with
      | .ok info => some (mkRow t info)
      | .error _ => none) := by
  induction tickers with
  | nil => rfl
  | cons t rest ih =>
    cases hfi : fi t with
    | error e => simp [fetchLoop, hfi, ih]
    | ok info => cases hfs : fs t <;> simp [fetchLoop, hfi, hfs, ih]

theorem chartLoop_out_eq (fs : String → Except String (List ℚ))
    (tickers : List String) :
    (chartLoop fs tickers).1 = tickers.filterMap (fun t =>
      match fs t with
      | .ok cs => some (t, computeIndicators cs)
      | .error _ => none) := by
  induction tickers with
  | nil => rfl
  | cons t rest ih => cases hfs : fs t <;> simp [chartLoop, hfs, ih]

theorem fetchLoop_all_ok (fi : String → Except String InfoRecord)
    (fs : String → Except String (List ℚ)) (l : List String)
    (h : ∀ t ∈ l, (∃ r, fi t = .ok r) ∧ ∃ cs, fs t = .ok cs) :
    (fetchLoop fi fs l).2.2 = [] ∧
    (fetchLoop fi fs l).1.map (fun r => r.ticker) = l := by
  induction l with
  | nil => exact ⟨rfl, rfl⟩
  | cons t rest ih =>
    obtain ⟨⟨r, hr⟩, ⟨cs, hcs⟩⟩ := h t (List.mem_cons_self t rest)
    have ihr := ih (fun u hu => h u (List.mem_cons_of_mem t hu))
    simp [fetchLoop, hr, hcs, ihr.1, ihr.2, mkRow]

theorem fetchLoop_all_fail (fi : String → Except String InfoRecord)
    (fs : String → Except String (List ℚ)) (l : List String)
    (em : String → String) (h : ∀ t ∈ l, fi t = .error (em t)) :
    fetchLoop fi fs l = ([], [], l.map (fun t => fetchErrMsg t (em t))) := by
  induction l with
  | nil => rfl
  | cons t rest ih =>
    have ht := h t (List.mem_cons_self t rest)
    have ihr := ih (fun u hu => h u (List.mem_cons_of_mem t hu))
    simp [fetchLoop, ht, ihr]

/-! ## C5 : a failing info fetch is isolated to its symbol -/

/-- C5: if symbol `b`'s info fetch fails while every other symbol's info and
price fetches succeed, the loop reports exactly one error (for `b`), omits
`b` from the metrics table, and keeps exactly one row per remaining symbol
in the original input order. -/
theorem fetch_error_isolation (fi : String → Except String InfoRecord)
    (fs : String → Except String (List ℚ)) (tickers : List String) (b e : String)
    (hnd : tickers.Nodup) (hb : b ∈ tickers) (hfi : fi b = .error e)
    (hok : ∀ t ∈ tickers, t ≠ b → ∃ r, fi t = .ok r)
    (hfs : ∀ t ∈ tickers, ∃ cs, fs t = .ok cs) :
    (fetchLoop fi fs tickers).2.2 = [fetchErrMsg b e] ∧
    (fetchLoop fi fs tickers).1.map (fun r => r.ticker) =
      tickers.filter (fun t => t ≠ b) := by
  induction tickers with
  | nil => simp at hb
  | cons t rest ih =>
    by_cases htb : t = b
    · subst htb
      have hnotin : t ∉ rest := (List.nodup_cons.mp hnd).1
      have hrest : ∀ u ∈ rest, (∃ r, fi u = .ok r) ∧ ∃ cs, fs u = .ok cs := by
        intro u hu
        have hne : u ≠ t := fun heq => hnotin (heq ▸ hu)
        exact ⟨hok u (List.mem_cons_of_mem t hu) hne,
          hfs u (List.mem_cons_of_mem t hu)⟩
      have hall := fetchLoop_all_ok fi fs rest hrest
      have hfilter : rest.filter (fun u => !decide (u = t)) = rest :=
        List.filter_eq_self.mpr (fun u hu => by
          simp only [Bool.not_eq_true']
          exact decide_eq_false (fun heq : u = t => hnotin (heq ▸ hu)))
      constructor
      · simp [fetchLoop, hfi, hall.1]
      · simp [fetchLoop, hfi, hall.2, List.filter_cons, hfilter]
    · have hb2 : b ∈ rest := by
        rcases List.mem_cons.mp hb with heq | hmem
        · exact absurd heq.symm htb
        · exact hmem
      obtain ⟨r, hr⟩ := hok t (List.mem_cons_self t rest) htb
      obtain ⟨cs, hcs⟩ := hfs t (List.mem_cons_self t rest)
      have ihh := ih (List.nodup_cons.mp hnd).2 hb2
        (fun u hu hub => hok u (List.mem_cons_of_mem t hu) hub)
        (fun u hu => hfs u (List.mem_cons_of_mem t hu))
      constructor
      · simp [fetchLoop, hr, hcs, ihh.1]
      · rw [List.filter_cons]
        simp [fetchLoop, hr, hcs, ihh.2, htb, mkRow]

/-- Witness for C5 on `["A", "B", "C"]` with `B` failing. -/
theorem fetch_error_isolation_witness :
    (fetchLoop
      (fun t => if t = "B" then .error "boom"
        else .ok ⟨none, none, none, none, none, none⟩)
      (fun _ => .ok []) ["A", "B", "C"]).2.2 = [fetchErrMsg "B" "boom"] ∧
    (fetchLoop
      (fun t => if t = "B" then .error "boom"
        else .ok ⟨none, none, none, none, none, none⟩)
      (fun _ => .ok []) ["A", "B", "C"]).1.map (fun r => r.ticker) = ["A", "C"] := by
  have h := fetch_error_isolation
    (fun t => if t = "B" then .error "boom"
      else .ok ⟨none, none, none, none, none, none⟩)
    (fun _ => .ok []) ["A", "B", "C"] "B" "boom"
    (by decide) (by decide) (if_pos rfl)
    (by
      intro t ht hne
      fin_cases ht
      · exact ⟨_, if_neg (by decide)⟩
      · exact absurd rfl hne
      · exact ⟨_, if_neg (by decide)⟩)
    (fun t _ => ⟨[], rfl⟩)
  refine ⟨h.1, ?_⟩
  rw [h.2]
  decide

/-! ## C8 : a failed symbol is excluded from table and charts alike -/

/-- C8: a symbol whose provider fetches fail (both the info fetch and the
price download raise) contributes no metrics row and no indicator/chart
output, while every symbol whose price download succeeds still receives its
indicator output in the chart loop. -/
theorem fetch_error_excludes_charts (fi : String → Except String InfoRecord)
    (fs : String → Except String (List ℚ)) (tickers : List String)
    (b e1 e2 : String) (hfi : fi b = .error e1) (hfs : fs b = .error e2) :
    (∀ r ∈ (fetchLoop fi fs tickers).1, r.ticker ≠ b) ∧
    (∀ p ∈ (chartLoop fs tickers).1, p.1 ≠ b) ∧
    ∀ t ∈ tickers, ∀ cs, fs t = .ok cs →
      (t, computeIndicators cs) ∈ (chartLoop fs tickers).1 := by
  refine ⟨fun r hr => ?_, fun p hp => ?_, fun t ht cs hcs => ?_⟩
  · rw [fetchLoop_rows_eq] at hr
    obtain ⟨t, ht, hsome⟩ := List.mem_filterMap.mp hr
    cases hfit : fi t with
    | error e => rw [hfit] at hsome; exact absurd hsome (by simp)
    | ok info =>
      rw [hfit] at hsome
      obtain rfl : mkRow t info = r := by simpa using hsome
      intro heq
      rw [mkRow] at heq
      simp only at heq
      rw [heq] at hfit
      rw [hfi] at hfit
      exact Except.noConfusion hfit
  · rw [chartLoop_out_eq] at hp
    obtain ⟨t, ht, hsome⟩ := List.mem_filterMap.mp hp
    cases hfst : fs t with
    | error e => rw [hfst] at hsome; exact absurd hsome (by simp)
    | ok cs =>
      rw [hfst] at hsome
      obtain rfl : (t, computeIndicators cs) = p := by simpa using hsome
      intro heq
      simp only at heq
      rw [heq] at hfst
      rw [hfs] at hfst
      exact Except.noConfusion hfst
  · rw [chartLoop_out_eq]
    exact List.mem_filterMap.mpr ⟨t, ht, by rw [hcs]⟩

/-- Witness for C8: with `B`'s fetches failing, `A` still gets its chart
output and `B` appears nowhere. -/
theorem fetch_error_excludes_charts_witness :
    ("A", computeIndicators []) ∈
      (chartLoop (fun t => if t = "B" then .error "down" else .ok [])
        ["A", "B"]).1 ∧
    ∀ p ∈ (chartLoop (fun t => if t = "B" then .error "down" else .ok [])
        ["A", "B"]).1, p.1 ≠ "B" := by
  have h := fetch_error_excludes_charts
    (fun t => if t = "B" then .error "nope"
      else .ok ⟨none, none, none, none, none, none⟩)
    (fun t => if t = "B" then .error "down" else .ok [])
    ["A", "B"] "B" "nope" "down" (if_pos rfl) (if_pos rfl)
  exact ⟨h.2.2 "A" (by decide) [] (if_neg (by decide)), h.2.1⟩

/-! ## C10 : an all-failed batch skips the whole output stage -/

/-- C10: when every requested symbol's info fetch fails, the app reports one
error message per symbol and renders nothing else: no metrics table, no
summary, no export payload, no heatmap and no charts. -/
theorem all_fetch_fail_skips_output (fi : String → Except String InfoRecord)
    (fs : String → Except String (List ℚ)) (tickers : List String)
    (em : String → String) (hfail : ∀ t ∈ tickers, fi t = .error (em t)) :
    runApp fi fs tickers =
      ⟨tickers.map (fun t => fetchErrMsg t (em t)), none, none, none, none, none⟩ := by
  rw [runApp, fetchLoop_all_fail fi fs tickers em hfail]
  rfl

/-- Witness for C10 on `["A", "B"]` with both info fetches failing. -/
theorem all_fetch_fail_skips_output_witness :
    runApp (fun _ => .error "offline") (fun _ => .ok []) ["A", "B"] =
      ⟨["Error fetching A: offline", "Error fetching B: offline"],
        none, none, none, none, none⟩ := by
  rw [all_fetch_fail_skips_output (fun _ => .error "offline") (fun _ => .ok [])
    ["A", "B"] (fun _ => "offline") (fun t _ => rfl)]
  rfl

/-! ## C6 : summary averages over present values only -/

theorem length_filterMap_id (col : List (Option ℚ)) :
    (col.filterMap id).length = col.countP (fun o => o.isSome) := by
  induction col with
  | nil => rfl
  | cons o rest ih => cases o <;> simp [List.filterMap_cons, List.countP_cons, ih]

theorem colMean_spec (col : List (Option ℚ)) :
    (colMean col = none ↔ col.countP (fun o => o.isSome) = 0) ∧
    (0 < col.countP (fun o => o.isSome) →
      colMean col =
        some ((col.filterMap id).sum / (col.countP (fun o => o.isSome) : ℚ))) := by
  have hlen := length_filterMap_id col
  by_cases h0 : (col.filterMap id).length = 0
  · constructor
    · simp [colMean, h0, ← hlen]
    · intro hpos
      rw [← hlen] at hpos
      omega
  · constructor
    · simp [colMean, h0, ← hlen]
    · intro _
      show (if (col.filterMap id).length = 0 then none
        else some ((col.filterMap id).sum / ((col.filterMap id).length : ℚ))) = _
      rw [if_neg h0, hlen]

/-- C6: each summary average is the arithmetic mean of its own field over
exactly the rows where that field is present — the denominator is the
per-field count of present values, independent across the three fields —
and a field present in no row yields the not-available marker. -/
theorem summary_field_averages (rows : List MetricsRow) :
    (((mkSummary rows).avgPE = none ↔
        (rows.map (fun r => r.peRatio)).countP (fun o => o.isSome) = 0) ∧
      (0 < (rows.map (fun r => r.peRatio)).countP (fun o => o.isSome) →
        (mkSummary rows).avgPE =
          some (((rows.map (fun r => r.peRatio)).filterMap id).sum /
            ((rows.map (fun r => r.peRatio)).countP (fun o => o.isSome) : ℚ)))) ∧
    (((mkSummary rows).avgPrice = none ↔
        (rows.map (fun r => r.price)).countP (fun o => o.isSome) = 0) ∧
      (0 < (rows.map (fun r => r.price)).countP (fun o => o.isSome) →
        (mkSummary rows).avgPrice =
          some (((rows.map (fun r => r.price)).filterMap id).sum /
            ((rows.map (fun r => r.price)).countP (fun o => o.isSome) : ℚ)))) ∧
    (((mkSummary rows).avgMarketCap = none ↔
        (rows.map (fun r => r.marketCap)).countP (fun o => o.isSome) = 0) ∧
      (0 < (rows.map (fun r => r.marketCap)).countP (fun o => o.isSome) →
        (mkSummary rows).avgMarketCap =
          some (((rows.map (fun r => r.marketCap)).filterMap id).sum /
            ((rows.map (fun r => r.marketCap)).countP (fun o => o.isSome) : ℚ)))) :=
  ⟨colMean_spec _, colMean_spec _, colMean_spec _⟩

/-- Witness for C6: P/E column `[10, marker, 20]` averages to `15` with
denominator 2, while the all-absent price column averages to the marker. -/
theorem summary_field_averages_witness :
    (mkSummary [⟨"A", none, none, none, none, none, some 10⟩,
      ⟨"B", none, none, none, none, none, none⟩,
      ⟨"C", none, none, none, none, none, some 20⟩]).avgPE = some 15 ∧
    (mkSummary [⟨"A", none, none, none, none, none, some 10⟩,
      ⟨"B", none, none, none, none, none, none⟩,
      ⟨"C", none, none, none, none, none, some 20⟩]).avgPrice = none := by
  have h := summary_field_averages [⟨"A", none, none, none, none, none, some 10⟩,
    ⟨"B", none, none, none, none, none, none⟩,
    ⟨"C", none, none, none, none, none, some 20⟩]
  constructor
  · rw [h.1.2 (by decide)]
    norm_num [List.filterMap_cons, List.countP_cons]
  · exact h.2.1.1.mpr (by decide)

/-! ## C9 : ticker parsing (normalization holds, uniqueness does not) -/

/-- C9 counterexample: the raw input `"AAPL, aapl"` parses to two identical
symbols — the parse performs no deduplication, so uniqueness within one
request does not hold. -/
theorem parse_tickers_not_unique :
    parseTickers ("AAPL, aapl".toList) = ["AAPL".toList, "AAPL".toList] ∧
    ¬ (parseTickers ("AAPL, aapl".toList)).Nodup := by
  constructor <;> decide

/-- C9 as amended: every parsed symbol is the trimmed, upper-cased form of a
non-blank comma-separated field, and the parsed sequence follows the user
input order (it is the in-order sublist of the normalized fields at the
non-blank positions); duplicates are not removed. -/
theorem parse_normalized_ordered (s : List Char) :
    List.Sublist (parseTickers s)
      ((splitOnComma s).map (fun t => upperChars (stripChars t))) ∧
    ∀ t ∈ parseTickers s, ∃ u ∈ splitOnComma s,
      stripChars u ≠ [] ∧ t = upperChars (stripChars u) := by
  constructor
  · exact (List.filter_sublist _).map _
  · intro t ht
    obtain ⟨u, hu, rfl⟩ := List.mem_map.mp ht
    have hu2 := List.mem_filter.mp hu
    exact ⟨u, hu2.1, by simpa using hu2.2, rfl⟩

end StockWatch
